import Mathlib

/-!
Shallow embedding of `btgym/algorithms/util.py` (nested-structure utilities
for feeding recurrent-state and observation data), together with proofs of
the behavioural claims about it.

Modelling conventions:
- Python nested structures (dict / LSTMStateTuple / tuple / list / leaf)
  become the inductive `PTree` (for the feed-dict functions, leaves abstract)
  and `Val` (for `batch_concat`, leaves are numpy arrays or python ints).
- Python dicts are insertion-ordered association lists; `d[k] = v` is
  insert-or-replace (`pyInsert`), `d.update(u)` is `pyUpdate`, lookup is
  `pyLookup`.
- Exceptions become `Except String`.
- The external library functions used by the source are modelled from their
  documented semantics: `tensorflow.python.util.nest.flatten` (depth-first,
  dict keys visited in sorted order) as `flatten_nested`,
  `nest.assert_same_structure` (with `check_types=True`) as the decidable
  check `same_structure`, and `np.concatenate(..., axis=0)` on row-major
  arrays as `np_concatenate`.
-/

/-- A Python nested structure as handled by the feed-dict utilities:
dict / LSTMStateTuple / tuple / list nodes over abstract leaves `α`. -/
inductive PTree (α : Type) : Type where
  | dict : List (String × PTree α) → PTree α
  | lstm : PTree α → PTree α → PTree α
  | tup : List (PTree α) → PTree α
  | lst : List (PTree α) → PTree α
  | leaf : α → PTree α

mutual

def ptreeDecEq {α : Type} [DecidableEq α] : (a b : PTree α) → Decidable (a = b)
  | .dict x, .dict y =>
    match kvDecEq x y with
    | isTrue h => isTrue (by rw [h])
    | isFalse h => isFalse (fun hh => h (by injection hh))
  | .dict _, .lstm _ _ => isFalse (fun h => nomatch h)
  | .dict _, .tup _ => isFalse (fun h => nomatch h)
  | .dict _, .lst _ => isFalse (fun h => nomatch h)
  | .dict _, .leaf _ => isFalse (fun h => nomatch h)
  | .lstm _ _, .dict _ => isFalse (fun h => nomatch h)
  | .lstm a b, .lstm c d =>
    match ptreeDecEq a c, ptreeDecEq b d with
    | isTrue h1, isTrue h2 => isTrue (by rw [h1, h2])
    | isFalse h1, _ => isFalse (fun hh => h1 (by injection hh))
    | _, isFalse h2 => isFalse (fun hh => h2 (by injection hh))
  | .lstm _ _, .tup _ => isFalse (fun h => nomatch h)
  | .lstm _ _, .lst _ => isFalse (fun h => nomatch h)
  | .lstm _ _, .leaf _ => isFalse (fun h => nomatch h)
  | .tup _, .dict _ => isFalse (fun h => nomatch h)
  | .tup _, .lstm _ _ => isFalse (fun h => nomatch h)
  | .tup x, .tup y =>
    match tlDecEq x y with
    | isTrue h => isTrue (by rw [h])
    | isFalse h => isFalse (fun hh => h (by injection hh))
  | .tup _, .lst _ => isFalse (fun h => nomatch h)
  | .tup _, .leaf _ => isFalse (fun h => nomatch h)
  | .lst _, .dict _ => isFalse (fun h => nomatch h)
  | .lst _, .lstm _ _ => isFalse (fun h => nomatch h)
  | .lst _, .tup _ => isFalse (fun h => nomatch h)
  | .lst x, .lst y =>
    match tlDecEq x y with
    | isTrue h => isTrue (by rw [h])
    | isFalse h => isFalse (fun hh => h (by injection hh))
  | .lst _, .leaf _ => isFalse (fun h => nomatch h)
  | .leaf _, .dict _ => isFalse (fun h => nomatch h)
  | .leaf _, .lstm _ _ => isFalse (fun h => nomatch h)
  | .leaf _, .tup _ => isFalse (fun h => nomatch h)
  | .leaf _, .lst _ => isFalse (fun h => nomatch h)
  | .leaf a, .leaf b =>
    if h : a = b then isTrue (by rw [h]) else isFalse (fun hh => h (by injection hh))

def kvDecEq {α : Type} [DecidableEq α] :
    (x y : List (String × PTree α)) → Decidable (x = y)
  | [], [] => isTrue rfl
  | [], _ :: _ => isFalse (fun h => nomatch h)
  | _ :: _, [] => isFalse (fun h => nomatch h)
  | (k, v) :: tl, (k', v') :: tl' =>
    if hk : k = k' then
      match ptreeDecEq v v', kvDecEq tl tl' with
      | isTrue h1, isTrue h2 => isTrue (by rw [hk, h1, h2])
      | isFalse h1, _ =>
        isFalse (fun hh => by
          injection hh with h3 h4
          exact h1 (by rw [Prod.ext_iff] at h3; exact h3.2))
      | _, isFalse h2 => isFalse (fun hh => by injection hh with h3 h4; exact h2 h4)
    else
      isFalse (fun hh => by
        injection hh with h3 h4
        exact hk (by rw [Prod.ext_iff] at h3; exact h3.1))

def tlDecEq {α : Type} [DecidableEq α] : (x y : List (PTree α)) → Decidable (x = y)
  | [], [] => isTrue rfl
  | [], _ :: _ => isFalse (fun h => nomatch h)
  | _ :: _, [] => isFalse (fun h => nomatch h)
  | v :: tl, v' :: tl' =>
    match ptreeDecEq v v', tlDecEq tl tl' with
    | isTrue h1, isTrue h2 => isTrue (by rw [h1, h2])
    | isFalse h1, _ => isFalse (fun hh => by injection hh with h3 h4; exact h1 h3)
    | _, isFalse h2 => isFalse (fun hh => by injection hh with h3 h4; exact h2 h4)

end

instance {α : Type} [DecidableEq α] : DecidableEq (PTree α) := ptreeDecEq

instance {Eps A : Type} [DecidableEq Eps] [DecidableEq A] :
    DecidableEq (Except Eps A) := fun x y =>
  match x, y with
  | .ok u, .ok v =>
    if h : u = v then isTrue (by rw [h]) else isFalse (fun hh => h (by injection hh))
  | .error u, .error v =>
    if h : u = v then isTrue (by rw [h]) else isFalse (fun hh => h (by injection hh))
  | .ok _, .error _ => isFalse (fun h => nomatch h)
  | .error _, .ok _ => isFalse (fun h => nomatch h)

/-! ## Python dict primitives

Python dicts are modelled as insertion-ordered association lists with
unique keys.  `pyInsert` is `d[k] = v` (replace in place if the key is
present, else append), `pyUpdate` is `d.update(u)`, `pyDictOf` builds a
dict from a sequence of key-value pairs (as a dict comprehension does),
`pyLookup` is `d[k]` returning `Option`. -/

def pyLookup {κ ν : Type} [DecidableEq κ] : List (κ × ν) → κ → Option ν
  | [], _ => none
  | kv :: tl, key => if kv.1 = key then some kv.2 else pyLookup tl key

def pyInsert {κ ν : Type} [DecidableEq κ] (d : List (κ × ν)) (k : κ) (v : ν) :
    List (κ × ν) :=
  if k ∈ d.map Prod.fst then
    d.map (fun p => if p.1 = k then (k, v) else p)
  else
    d ++ [(k, v)]

def pyUpdate {κ ν : Type} [DecidableEq κ] (d u : List (κ × ν)) : List (κ × ν) :=
  u.foldl (fun acc p => pyInsert acc p.1 p.2) d

def pyDictOf {κ ν : Type} [DecidableEq κ] (l : List (κ × ν)) : List (κ × ν) :=
  pyUpdate [] l

/-! ## Sorting dict keys (Python `sorted`, used by `tensorflow nest`) -/

def insertByKey {β : Type} (kv : String × β) :
    List (String × β) → List (String × β)
  | [] => [kv]
  | hd :: tl => if kv.1 ≤ hd.1 then kv :: hd :: tl else hd :: insertByKey kv tl

def sortByKey {β : Type} (l : List (String × β)) : List (String × β) :=
  l.foldr insertByKey []

theorem sizeOf_insertByKey {β : Type} [SizeOf β] (kv : String × β)
    (l : List (String × β)) :
    sizeOf (insertByKey kv l) = 1 + sizeOf kv + sizeOf l := by
  induction l with
  | nil => simp [insertByKey]
  | cons hd tl ih =>
    simp only [insertByKey]
    split
    · simp only [List.cons.sizeOf_spec]
    · simp only [List.cons.sizeOf_spec, ih]
      omega

theorem sizeOf_sortByKey {β : Type} [SizeOf β] (l : List (String × β)) :
    sizeOf (sortByKey l) = sizeOf l := by
  induction l with
  | nil => rfl
  | cons hd tl ih =>
    simp only [sortByKey, List.foldr_cons] at *
    rw [sizeOf_insertByKey, ih]
    simp only [List.cons.sizeOf_spec]

/-! ## Model of `tensorflow.python.util.nest.flatten`

Depth-first leaf sequence; dict keys are visited in sorted order,
`LSTMStateTuple` emits first the `c` then the `h` component, tuples and
lists by position. -/

mutual

def flatten_nested {α : Type} : PTree α → List α
  | .dict kvs => fn_dict (sortByKey kvs)
  | .lstm c h => flatten_nested c ++ flatten_nested h
  | .tup xs => fn_list xs
  | .lst xs => fn_list xs
  | .leaf a => [a]
termination_by t => sizeOf t
decreasing_by
  all_goals simp_wf
  all_goals try rw [sizeOf_sortByKey]
  all_goals omega

def fn_dict {α : Type} : List (String × PTree α) → List α
  | [] => []
  | (_, v) :: tl => flatten_nested v ++ fn_dict tl
termination_by l => sizeOf l
decreasing_by
  all_goals simp_wf
  all_goals omega

def fn_list {α : Type} : List (PTree α) → List α
  | [] => []
  | x :: tl => flatten_nested x ++ fn_list tl
termination_by l => sizeOf l
decreasing_by
  all_goals simp_wf
  all_goals omega

end

/-! ## Model of `tensorflow.python.util.nest.assert_same_structure`
(`check_types=True`)

Two structures match iff at every position they carry the same node kind
(dict / LSTMStateTuple / tuple / list / leaf — with `check_types=True`
tuples, lists and `LSTMStateTuple`s are distinct types), dicts have equal
key sets, and tuple/list nodes have equal arity.  The source's
`assert_same_structure` raises on mismatch; here the check is the
decidable predicate and the raise is placed in `feed_dict_from_nested`. -/

def keysSubset {α β : Type} (a : List (String × PTree α))
    (b : List (String × PTree β)) : Bool :=
  a.all (fun kv => (pyLookup b kv.1).isSome)

mutual

def same_structure {α β : Type} : PTree α → PTree β → Bool
  | .dict a, .dict b => keysSubset a b && keysSubset b a && ss_dict a b
  | .lstm c h, .lstm c' h' => same_structure c c' && same_structure h h'
  | .tup xs, .tup ys => ss_list xs ys
  | .lst xs, .lst ys => ss_list xs ys
  | .leaf _, .leaf _ => true
  | _, _ => false

def ss_dict {α β : Type} :
    List (String × PTree α) → List (String × PTree β) → Bool
  | [], _ => true
  | (k, v) :: tl, b =>
    (match pyLookup b k with
     | some vb => same_structure v vb
     | none => false) && ss_dict tl b

def ss_list {α β : Type} : List (PTree α) → List (PTree β) → Bool
  | [], [] => true
  | x :: xs, y :: ys => same_structure x y && ss_list xs ys
  | _, _ => false

end

/-! ## `feed_dict_from_nested` / `_flat_from_nested` (the Zipper)

The source first calls `assert_same_structure(placeholder, value,
check_types=True)` and then `_flat_from_nested`.  `_flat_from_nested`
recurses only into dict nodes; any non-dict slot node is bound whole as a
single feed-dict entry, with the value wrapped in a one-element python
list when `expand_batch` is set.  `value[key]` can raise `KeyError` /
`TypeError`, hence `Except`. -/

def pyGetItem {β : Type} : PTree β → String → Except String (PTree β)
  | .dict kvs, k =>
    match pyLookup kvs k with
    | some v => .ok v
    | none => .error "KeyError"
  | _, _ => .error "TypeError: not subscriptable by string key"

mutual

def flat_from_nested {α β : Type} [DecidableEq α] :
    PTree α → PTree β → Bool → Except String (List (PTree α × PTree β))
  | .dict kvs, value, expand_batch => flat_go kvs value expand_batch []
  | placeholder, value, expand_batch =>
    .ok [(placeholder, if expand_batch then .lst [value] else value)]

def flat_go {α β : Type} [DecidableEq α] :
    List (String × PTree α) → PTree β → Bool →
    List (PTree α × PTree β) → Except String (List (PTree α × PTree β))
  | [], _, _, feed_dict => .ok feed_dict
  | (k, sub) :: tl, value, expand_batch, feed_dict =>
    match pyGetItem value k with
    | .error e => .error e
    | .ok vk =>
      match flat_from_nested sub vk expand_batch with
      | .error e => .error e
      | .ok sub_fd => flat_go tl value expand_batch (pyUpdate feed_dict sub_fd)

end

def feed_dict_from_nested {α β : Type} [DecidableEq α] (placeholder : PTree α)
    (value : PTree β) (expand_batch : Bool) :
    Except String (List (PTree α × PTree β)) :=
  if same_structure placeholder value then
    flat_from_nested placeholder value expand_batch
  else
    .error "StructureMismatch"

/-! ## `feed_dict_rnn_context`

`{key: value for key, value in zip(placeholders, flatten_nested(values))}`:
python `zip` silently truncates to the shorter sequence. -/

def feed_dict_rnn_context {α β : Type} [DecidableEq α] (placeholders : List α)
    (values : PTree β) : List (α × β) :=
  pyDictOf (placeholders.zip (flatten_nested values))

/-! ## `nested_placeholders` (the SchemaBuilder)

The observation space is a nested dict of shape tuples; for a dict node the
source recurses per key with `name + '_' + key`, for a leaf shape it builds
`tf.placeholder(tf.float32, [batch_dim] + list(ob_space), name + '_pl')`.
A placeholder is modelled by its identifier together with its shape, where
a `tf` dimension is `Option Nat` (`none` is an unbound / `None` dim). -/

inductive ObSpace : Type where
  | dict : List (String × ObSpace) → ObSpace
  | shape : List Nat → ObSpace

inductive Placeholders : Type where
  | dict : List (String × Placeholders) → Placeholders
  | ph : String → List (Option Nat) → Placeholders

mutual

def nested_placeholders : ObSpace → Option Nat → String → Placeholders
  | .dict kvs, batch_dim, name => .dict (np_go kvs batch_dim name)
  | .shape s, batch_dim, name => .ph (name ++ "_pl") (batch_dim :: s.map some)

def np_go : List (String × ObSpace) → Option Nat → String →
    List (String × Placeholders)
  | [], _, _ => []
  | (key, v) :: tl, batch_dim, name =>
    (key, nested_placeholders v batch_dim (name ++ "_" ++ key)) ::
      np_go tl batch_dim name

end

/-- Subtree of an `ObSpace` at a key path (`none` when the path does not
exist). -/
def obAt : ObSpace → List String → Option ObSpace
  | t, [] => some t
  | .dict kvs, k :: p =>
    match pyLookup kvs k with
    | some v => obAt v p
    | none => none
  | .shape _, _ :: _ => none

/-- Subtree of a `Placeholders` tree at a key path. -/
def phAt : Placeholders → List String → Option Placeholders
  | t, [] => some t
  | .dict kvs, k :: p =>
    match pyLookup kvs k with
    | some v => phAt v p
    | none => none
  | .ph _ _, _ :: _ => none

/-- The identifier prefix accumulated along a key path: the base name with
`"_" + key` appended per level. -/
def pathName (name : String) (path : List String) : String :=
  path.foldl (fun n k => n ++ "_" ++ k) name

/-! ## `batch_concat` (the BatchConcatenator)

Leaves of the value trees are numpy arrays, modelled as a shape together
with the row-major flat data (`Val.arr`); the two scalars the function
injects are python ints (`Val.intv`). -/

inductive Val : Type where
  | dict : List (String × Val) → Val
  | lstm : Val → Val → Val
  | tup : List Val → Val
  | arr : List Nat → List Int → Val
  | intv : Nat → Val

mutual

def valDecEq : (a b : Val) → Decidable (a = b)
  | .dict x, .dict y =>
    match vkvDecEq x y with
    | isTrue h => isTrue (by rw [h])
    | isFalse h => isFalse (fun hh => h (by injection hh))
  | .dict _, .lstm _ _ => isFalse (fun h => nomatch h)
  | .dict _, .tup _ => isFalse (fun h => nomatch h)
  | .dict _, .arr _ _ => isFalse (fun h => nomatch h)
  | .dict _, .intv _ => isFalse (fun h => nomatch h)
  | .lstm _ _, .dict _ => isFalse (fun h => nomatch h)
  | .lstm a b, .lstm c d =>
    match valDecEq a c, valDecEq b d with
    | isTrue h1, isTrue h2 => isTrue (by rw [h1, h2])
    | isFalse h1, _ => isFalse (fun hh => h1 (by injection hh))
    | _, isFalse h2 => isFalse (fun hh => h2 (by injection hh))
  | .lstm _ _, .tup _ => isFalse (fun h => nomatch h)
  | .lstm _ _, .arr _ _ => isFalse (fun h => nomatch h)
  | .lstm _ _, .intv _ => isFalse (fun h => nomatch h)
  | .tup _, .dict _ => isFalse (fun h => nomatch h)
  | .tup _, .lstm _ _ => isFalse (fun h => nomatch h)
  | .tup x, .tup y =>
    match vlDecEq x y with
    | isTrue h => isTrue (by rw [h])
    | isFalse h => isFalse (fun hh => h (by injection hh))
  | .tup _, .arr _ _ => isFalse (fun h => nomatch h)
  | .tup _, .intv _ => isFalse (fun h => nomatch h)
  | .arr _ _, .dict _ => isFalse (fun h => nomatch h)
  | .arr _ _, .lstm _ _ => isFalse (fun h => nomatch h)
  | .arr _ _, .tup _ => isFalse (fun h => nomatch h)
  | .arr s d, .arr s' d' =>
    if h : s = s' ∧ d = d' then isTrue (by rw [h.1, h.2])
    else
      isFalse (fun hh => by
        injection hh with h1 h2
        exact h ⟨h1, h2⟩)
  | .arr _ _, .intv _ => isFalse (fun h => nomatch h)
  | .intv _, .dict _ => isFalse (fun h => nomatch h)
  | .intv _, .lstm _ _ => isFalse (fun h => nomatch h)
  | .intv _, .tup _ => isFalse (fun h => nomatch h)
  | .intv _, .arr _ _ => isFalse (fun h => nomatch h)
  | .intv n, .intv m =>
    if h : n = m then isTrue (by rw [h]) else isFalse (fun hh => h (by injection hh))

def vkvDecEq : (x y : List (String × Val)) → Decidable (x = y)
  | [], [] => isTrue rfl
  | [], _ :: _ => isFalse (fun h => nomatch h)
  | _ :: _, [] => isFalse (fun h => nomatch h)
  | (k, v) :: tl, (k', v') :: tl' =>
    if hk : k = k' then
      match valDecEq v v', vkvDecEq tl tl' with
      | isTrue h1, isTrue h2 => isTrue (by rw [hk, h1, h2])
      | isFalse h1, _ =>
        isFalse (fun hh => by
          injection hh with h3 h4
          exact h1 (by rw [Prod.ext_iff] at h3; exact h3.2))
      | _, isFalse h2 => isFalse (fun hh => by injection hh with h3 h4; exact h2 h4)
    else
      isFalse (fun hh => by
        injection hh with h3 h4
        exact hk (by rw [Prod.ext_iff] at h3; exact h3.1))

def vlDecEq : (x y : List Val) → Decidable (x = y)
  | [], [] => isTrue rfl
  | [], _ :: _ => isFalse (fun h => nomatch h)
  | _ :: _, [] => isFalse (fun h => nomatch h)
  | v :: tl, v' :: tl' =>
    match valDecEq v v', vlDecEq tl tl' with
    | isTrue h1, isTrue h2 => isTrue (by rw [h1, h2])
    | isFalse h1, _ => isFalse (fun hh => by injection hh with h3 h4; exact h1 h3)
    | _, isFalse h2 => isFalse (fun hh => by injection hh with h3 h4; exact h2 h4)

end

instance : DecidableEq Val := valDecEq

/-- Python `value[key]` for `Val` trees (`KeyError` on a missing dict key,
`TypeError` when the value is not subscriptable by a string key). -/
def pyValGet : Val → String → Except String Val
  | .dict kvs, key =>
    match pyLookup kvs key with
    | some v => .ok v
    | none => .error "KeyError"
  | _, _ => .error "TypeError: not subscriptable by string key"

/-- Python `struct[i]` for `Val` trees: `LSTMStateTuple` and tuple index
positionally, numpy arrays of rank at least one index into rows along
axis 0 (row-major data layout). -/
def pyIndex : Val → Nat → Except String Val
  | .lstm c _, 0 => .ok c
  | .lstm _ h, 1 => .ok h
  | .lstm _ _, _ => .error "IndexError: tuple index out of range"
  | .tup xs, i =>
    match xs[i]? with
    | some v => .ok v
    | none => .error "IndexError: tuple index out of range"
  | .arr (d :: ds) data, i =>
    if i < d then .ok (.arr ds ((data.drop (i * ds.prod)).take ds.prod))
    else .error "IndexError: index out of bounds"
  | .arr [] _, _ => .error "IndexError: too many indices for array"
  | .dict _, _ => .error "KeyError"
  | .intv _, _ => .error "TypeError: int object is not subscriptable"

/-- Python `x.shape[0]`: defined only for numpy arrays of rank at least
one (`AttributeError` for objects without a shape, `IndexError` for
rank-zero arrays). -/
def valShape0 : Val → Except String Nat
  | .arr (d :: _) _ => .ok d
  | .arr [] _ => .error "IndexError: tuple index out of range"
  | _ => .error "AttributeError: object has no attribute shape"

/-- First step of `np.concatenate(vs, axis=0)`: view one input as an array
of rank at least one. -/
def toArr : Val → Except String (Nat × List Nat × List Int)
  | .arr (d :: ds) data => .ok (d, ds, data)
  | .arr [] _ => .error "ValueError: zero-dimensional arrays cannot be concatenated"
  | _ => .error "ValueError: input is not an array"

def np_concat_go : List Val → List Nat → Nat → List Int → Except String Val
  | [], ds0, dsum, dat => .ok (.arr (dsum :: ds0) dat)
  | v :: tl, ds0, dsum, dat =>
    match toArr v with
    | .error e => .error e
    | .ok (d, ds, data) =>
      if ds = ds0 then np_concat_go tl ds0 (dsum + d) (dat ++ data)
      else .error "ValueError: array dimensions mismatch"

/-- Model of `np.concatenate(vs, axis=0)`: every input must be an array of
rank at least one, all trailing dimensions must agree; the result stacks
the inputs along axis 0 (row-major data concatenation). -/
def np_concatenate : List Val → Except String Val
  | [] => .error "ValueError: need at least one array to concatenate"
  | v :: tl =>
    match toArr v with
    | .error e => .error e
    | .ok (d0, ds0, data0) => np_concat_go tl ds0 d0 data0

/-- The shape-inference step of `batch_concat`: at the top level it injects
`rnn_batch_size = len(dict_list)` and
`rnn_time_steps = master['terminal'].shape[0]` (either access can raise);
on recursive calls it contributes the empty dict. -/
def bc_init (master : Val) (n : Nat) (_top : Bool) :
    Except String (List (String × Val)) :=
  if _top then
    match pyValGet master "terminal" with
    | .error e => .error e
    | .ok term =>
      match valShape0 term with
      | .error e => .error e
      | .ok t0 =>
        .ok [("rnn_batch_size", .intv n), ("rnn_time_steps", .intv t0)]
  else .ok []

mutual

/-- `batch_concat(master :: rest, _top)`: the recursion of the source with
the first element (`master`, which drives the type dispatch) split off.
The shape-inference step `bc_init` runs before the dispatch on the type
of `master`, exactly as in the source, where it is repeated at the head
of every branch below. -/
def bc : Val → List Val → Bool → Except String Val
  | .dict kvs, rest, _top =>
    match bc_init (.dict kvs) (rest.length + 1) _top with
    | .error e => .error e
    | .ok batch0 =>
      match bc_dict kvs rest batch0 with
      | .error e => .error e
      | .ok out => .ok (.dict out)
  | .lstm c h, rest, _top =>
    match bc_init (.lstm c h) (rest.length + 1) _top with
    | .error e => .error e
    | .ok _ =>
      match rest.mapM (fun state => pyIndex state 0) with
      | .error e => .error e
      | .ok cs =>
        match bc c cs false with
        | .error e => .error e
        | .ok c2 =>
          match rest.mapM (fun state => pyIndex state 1) with
          | .error e => .error e
          | .ok hs =>
            match bc h hs false with
            | .error e => .error e
            | .ok h2 => .ok (.lstm c2 h2)
  | .tup xs, rest, _top =>
    match bc_init (.tup xs) (rest.length + 1) _top with
    | .error e => .error e
    | .ok _ =>
      match bc_tup xs 0 rest with
      | .error e => .error e
      | .ok out => .ok (.tup out)
  | m, rest, _top =>
    match bc_init m (rest.length + 1) _top with
    | .error e => .error e
    | .ok _ => np_concatenate (m :: rest)

termination_by structural master _ _ => master

/-- The `for key in master.keys(): batch[key] = batch_concat([value[key]
for value in dict_list], False)` loop, with `batch` the accumulating
dict. -/
def bc_dict : List (String × Val) → List Val → List (String × Val) →
    Except String (List (String × Val))
  | [], _, batch => .ok batch
  | (key, sub) :: tl, rest, batch =>
    match rest.mapM (fun value => pyValGet value key) with
    | .error e => .error e
    | .ok others =>
      match bc sub others false with
      | .error e => .error e
      | .ok v => bc_dict tl rest (pyInsert batch key v)

termination_by structural kvs _ _ => kvs

/-- The `tuple([batch_concat([struct[i] for struct in dict_list], False)
for i in range(len(master))])` comprehension, iterating the elements of
`master` with their index. -/
def bc_tup : List Val → Nat → List Val → Except String (List Val)
  | [], _, _ => .ok []
  | x :: xtl, i, rest =>
    match rest.mapM (fun struct => pyIndex struct i) with
    | .error e => .error e
    | .ok others =>
      match bc x others false with
      | .error e => .error e
      | .ok v =>
        match bc_tup xtl (i + 1) rest with
        | .error e => .error e
        | .ok vs => .ok (v :: vs)

termination_by structural xs _ _ => xs

end

/-- `batch_concat(dict_list, _top=True)`: `master = dict_list[0]` raises
`IndexError` on an empty list before any other work. -/
def batch_concat (dict_list : List Val) (_top : Bool := true) :
    Except String Val :=
  match dict_list with
  | [] => .error "IndexError: list index out of range"
  | master :: rest => bc master rest _top


/-! ## Helper lemmas about the python dict primitives -/

theorem pyInsert_of_not_mem {κ ν : Type} [DecidableEq κ] {d : List (κ × ν)}
    {k : κ} (v : ν) (h : k ∉ d.map Prod.fst) :
    pyInsert d k v = d ++ [(k, v)] := by
  simp [pyInsert, h]

theorem map_fst_pyInsert {κ ν : Type} [DecidableEq κ] (d : List (κ × ν))
    (k : κ) (v : ν) :
    (pyInsert d k v).map Prod.fst =
      if k ∈ d.map Prod.fst then d.map Prod.fst else d.map Prod.fst ++ [k] := by
  by_cases h : k ∈ d.map Prod.fst
  · simp only [pyInsert, h, if_pos]
    rw [List.map_map]
    apply List.map_congr_left
    intro p _
    by_cases hp : p.1 = k
    · simp [hp]
    · simp [hp]
  · simp [pyInsert, h]

theorem pyLookup_map_replace {κ ν : Type} [DecidableEq κ] (d : List (κ × ν))
    (k : κ) (v : ν) {key : κ} (h : k ≠ key) :
    pyLookup (d.map (fun p => if p.1 = k then (k, v) else p)) key =
      pyLookup d key := by
  induction d with
  | nil => rfl
  | cons hd tl ih =>
    simp only [List.map_cons]
    by_cases hh : hd.1 = k
    · rw [if_pos hh]
      have h1 : hd.1 ≠ key := by rw [hh]; exact h
      simp only [pyLookup, h, ite_false, h1, ih]
    · rw [if_neg hh]
      simp only [pyLookup, ih]

theorem pyLookup_append_ne {κ ν : Type} [DecidableEq κ] (d : List (κ × ν))
    (k : κ) (v : ν) {key : κ} (h : k ≠ key) :
    pyLookup (d ++ [(k, v)]) key = pyLookup d key := by
  induction d with
  | nil => simp [pyLookup, h]
  | cons hd tl ih =>
    simp only [List.cons_append, pyLookup, List.append_eq, ih]

theorem pyLookup_pyInsert_ne {κ ν : Type} [DecidableEq κ] (d : List (κ × ν))
    {k : κ} (v : ν) {key : κ} (h : k ≠ key) :
    pyLookup (pyInsert d k v) key = pyLookup d key := by
  by_cases hm : k ∈ d.map Prod.fst
  · simp only [pyInsert, hm, if_pos]
    exact pyLookup_map_replace d k v h
  · simp only [pyInsert, hm, if_neg, ite_false]
    exact pyLookup_append_ne d k v h

theorem pyUpdate_of_disjoint {κ ν : Type} [DecidableEq κ] (u : List (κ × ν)) :
    ∀ d : List (κ × ν), ((d.map Prod.fst) ++ (u.map Prod.fst)).Nodup →
    pyUpdate d u = d ++ u := by
  induction u with
  | nil => intro d _; simp [pyUpdate]
  | cons p tl ih =>
    intro d h
    have hmem : p.1 ∉ d.map Prod.fst := by
      rw [List.nodup_append] at h
      intro hc
      exact h.2.2 hc (by simp)
    have hstep : pyInsert d p.1 p.2 = d ++ [p] := pyInsert_of_not_mem p.2 hmem
    have h2 : (((d ++ [p]).map Prod.fst) ++ (tl.map Prod.fst)).Nodup := by
      simpa [List.append_assoc] using h
    calc pyUpdate d (p :: tl) = pyUpdate (d ++ [p]) tl := by
          simp only [pyUpdate, List.foldl_cons, hstep]
      _ = (d ++ [p]) ++ tl := ih (d ++ [p]) h2
      _ = d ++ (p :: tl) := by simp

theorem pyDictOf_of_nodup {κ ν : Type} [DecidableEq κ] (l : List (κ × ν))
    (h : (l.map Prod.fst).Nodup) : pyDictOf l = l := by
  have := pyUpdate_of_disjoint l [] (by simpa using h)
  simpa [pyDictOf] using this

theorem map_fst_zip_sublist {κ ν : Type} : ∀ (ps : List κ) (l : List ν),
    ((ps.zip l).map Prod.fst).Sublist ps
  | [], _ => by simp
  | _ :: _, [] => by simp
  | p :: ps, x :: l => by
    simp only [List.zip_cons_cons, List.map_cons]
    exact (map_fst_zip_sublist ps l).cons₂ p

/-- Claim C1, corrected.  The claim says a length mismatch between the flat
slot sequence and the flattened value tree is a hard error; in the source
`feed_dict_rnn_context` builds `{key: value for key, value in
zip(placeholders, flatten_nested(values))}` and python `zip` silently
truncates to the shorter sequence, so no error is raised.  Amended
statement, proved here: for distinct placeholders the result is exactly the
positional pairing of the flat slot sequence with the flattened value tree,
truncated to the shorter of the two; when the lengths are equal this is the
full positional pairing. -/
theorem c1_theorem {α β : Type} [DecidableEq α] (placeholders : List α)
    (values : PTree β) (h : placeholders.Nodup) :
    feed_dict_rnn_context placeholders values =
      placeholders.zip (flatten_nested values) := by
  apply pyDictOf_of_nodup
  exact List.Nodup.sublist (map_fst_zip_sublist _ _) h

/-- Claim C1, counterexample to the claim as stated: two flat slots against
a value tree that flattens to one leaf is a length mismatch, yet
`feed_dict_rnn_context` returns the truncated mapping `[(0, 42)]` instead
of failing. -/
theorem c1_counterexample :
    (flatten_nested (PTree.leaf (42 : Nat))).length ≠ ([0, 1] : List Nat).length ∧
    feed_dict_rnn_context ([0, 1] : List Nat) (PTree.leaf (42 : Nat)) = [(0, 42)] := by
  constructor
  · simp [flatten_nested]
  · simp [feed_dict_rnn_context, flatten_nested, pyDictOf, pyUpdate, pyInsert]

/-- Witness for `c1_theorem` at a concrete input: two slots, three flattened
values; the mapping truncates to the first two pairs, positionally. -/
theorem c1_witness :
    ([0, 1] : List Nat).Nodup ∧
    feed_dict_rnn_context ([0, 1] : List Nat)
      (PTree.lst [.leaf (5 : Nat), .leaf 6, .leaf 7]) = [(0, 5), (1, 6)] := by
  refine ⟨by decide, ?_⟩
  rw [c1_theorem ([0, 1] : List Nat) (PTree.lst [.leaf (5 : Nat), .leaf 6, .leaf 7]) (by decide)]
  simp [flatten_nested, fn_list]

/-- Claim C3: when the slot tree and the value tree are not structurally
isomorphic (in the sense of `assert_same_structure` with
`check_types=True`), `feed_dict_from_nested` fails with the
StructureMismatch error and never returns a (partial) flat mapping: the
structure check runs before any binding. -/
theorem c3_theorem {α β : Type} [DecidableEq α] (placeholder : PTree α)
    (value : PTree β) (expand_batch : Bool)
    (h : same_structure placeholder value = false) :
    feed_dict_from_nested placeholder value expand_batch =
      .error "StructureMismatch" := by
  simp [feed_dict_from_nested, h]

/-- Witness for `c3_theorem`: the value tree misses key `"b"` present in
the slot tree (the spec's own example), and the call fails with
StructureMismatch. -/
theorem c3_witness :
    same_structure (PTree.dict [("a", .leaf (1 : Nat)), ("b", .leaf 2)])
      (PTree.dict [("a", .leaf (5 : Nat))]) = false ∧
    feed_dict_from_nested (PTree.dict [("a", .leaf (1 : Nat)), ("b", .leaf 2)])
      (PTree.dict [("a", .leaf (5 : Nat))]) false = .error "StructureMismatch" :=
  ⟨rfl, c3_theorem _ _ false rfl⟩

/-- Claim C8: for a matched pair of leaves, `_flat_from_nested` binds the
slot to `[value]` (the value wrapped in a one-element python list, a
synthetic batch dimension of size 1) when `expand_batch` is set, and to
the value unchanged when it is not. -/
theorem c8_theorem (a b : Nat) :
    feed_dict_from_nested (PTree.leaf a) (PTree.leaf b) true =
      .ok [(.leaf a, .lst [.leaf b])] ∧
    feed_dict_from_nested (PTree.leaf a) (PTree.leaf b) false =
      .ok [(.leaf a, .leaf b)] :=
  ⟨rfl, rfl⟩

/-! ## Lemmas about `nested_placeholders` -/

theorem np_go_keys : ∀ (kvs : List (String × ObSpace)) (batch_dim : Option Nat)
    (name : String),
    (np_go kvs batch_dim name).map Prod.fst = kvs.map Prod.fst
  | [], _, _ => rfl
  | (key, v) :: tl, b, name => by
    simp only [np_go, List.map_cons]
    rw [np_go_keys tl b name]

theorem np_go_lookup : ∀ (kvs : List (String × ObSpace)) (batch_dim : Option Nat)
    (name : String) (k : String),
    pyLookup (np_go kvs batch_dim name) k =
      (pyLookup kvs k).map (fun v => nested_placeholders v batch_dim (name ++ "_" ++ k))
  | [], _, _, _ => rfl
  | (key, v) :: tl, b, name, k => by
    simp only [np_go, pyLookup]
    by_cases h : key = k
    · subst h
      simp
    · simp only [h, ite_false]
      exact np_go_lookup tl b name k

/-- Claim C7: `nested_placeholders` preserves the key structure of the
observation-space schema, and the leaf reached by any key path holding a
schema shape `s` is a placeholder whose identifier is the base name with
`"_" + key` appended per path level and `"_pl"` appended at the leaf, and
whose shape is `[batch_dim] + s`. -/
theorem c7_theorem (ob_space : ObSpace) (batch_dim : Option Nat) (name : String)
    (path : List String) :
    (∀ s, obAt ob_space path = some (.shape s) →
      phAt (nested_placeholders ob_space batch_dim name) path =
        some (.ph (pathName name path ++ "_pl") (batch_dim :: s.map some))) ∧
    (∀ kvs, obAt ob_space path = some (.dict kvs) →
      ∃ kvs2, phAt (nested_placeholders ob_space batch_dim name) path =
          some (.dict kvs2) ∧ kvs2.map Prod.fst = kvs.map Prod.fst) := by
  induction path generalizing ob_space name with
  | nil =>
    constructor
    · intro s hs
      simp only [obAt, Option.some.injEq] at hs
      subst hs
      rfl
    · intro kvs hk
      simp only [obAt, Option.some.injEq] at hk
      subst hk
      exact ⟨_, rfl, np_go_keys kvs batch_dim name⟩
  | cons k p ih =>
    cases ob_space with
    | shape s0 =>
      constructor
      · intro s hs
        simp only [obAt] at hs
        exact Option.noConfusion hs
      · intro kvs hk
        simp only [obAt] at hk
        exact Option.noConfusion hk
    | dict kvs0 =>
      have hstep : ∀ v, pyLookup kvs0 k = some v →
          phAt (nested_placeholders (ObSpace.dict kvs0) batch_dim name) (k :: p) =
            phAt (nested_placeholders v batch_dim (name ++ "_" ++ k)) p := by
        intro v hv
        have hl : pyLookup (np_go kvs0 batch_dim name) k =
            some (nested_placeholders v batch_dim (name ++ "_" ++ k)) := by
          rw [np_go_lookup kvs0 batch_dim name k, hv]
          rfl
        simp only [nested_placeholders, phAt, hl]
      constructor
      · intro s hs
        simp only [obAt] at hs
        cases hv : pyLookup kvs0 k with
        | none => rw [hv] at hs; exact Option.noConfusion hs
        | some v =>
          rw [hv] at hs
          rw [hstep v hv]
          exact (ih v (name ++ "_" ++ k)).1 s hs
      · intro kvs hk
        simp only [obAt] at hk
        cases hv : pyLookup kvs0 k with
        | none => rw [hv] at hk; exact Option.noConfusion hk
        | some v =>
          rw [hv] at hk
          rw [hstep v hv]
          exact (ih v (name ++ "_" ++ k)).2 kvs hk

/-- Witness for `c7_theorem`: for the schema `{a: {b: [4]}}` with batch
dimension 7 and base name `"nested"`, the sole leaf is the placeholder
named `"nested_a_b_pl"` (containing both `a` and `b`) with shape
`[7, 4]`. -/
theorem c7_witness :
    obAt (ObSpace.dict [("a", .dict [("b", .shape [4])])]) ["a", "b"] =
      some (.shape [4]) ∧
    phAt (nested_placeholders (ObSpace.dict [("a", .dict [("b", .shape [4])])])
        (some 7) "nested") ["a", "b"] =
      some (.ph "nested_a_b_pl" [some 7, some 4]) := by
  constructor
  · rfl
  · exact (c7_theorem (ObSpace.dict [("a", .dict [("b", .shape [4])])])
      (some 7) "nested" ["a", "b"]).1 [4] rfl

/-! ## Maximal non-dict subtrees

`_flat_from_nested` recurses only into dict nodes; every maximal non-dict
subtree of the slot tree (in particular every leaf of a slot tree whose
interior nodes are all dicts) becomes one feed-dict entry. -/

mutual

def nonDictSubtrees {α : Type} : PTree α → List (PTree α)
  | .dict kvs => nds_go kvs
  | t => [t]

def nds_go {α : Type} : List (String × PTree α) → List (PTree α)
  | [] => []
  | (_, v) :: tl => nonDictSubtrees v ++ nds_go tl

end

theorem ss_dict_mem {α β : Type} : ∀ (a : List (String × PTree α))
    (b : List (String × PTree β)), ss_dict a b = true →
    ∀ kv ∈ a, ∃ vb, pyLookup b kv.1 = some vb ∧ same_structure kv.2 vb = true
  | [], _, _, kv, hkv => absurd hkv (List.not_mem_nil kv)
  | (k, v) :: tl, b, h, kv, hkv => by
    simp only [ss_dict, Bool.and_eq_true] at h
    rcases List.mem_cons.mp hkv with rfl | hmem
    · cases hb : pyLookup b k with
      | none =>
        rw [hb] at h
        exact Bool.noConfusion h.1
      | some vb =>
        rw [hb] at h
        exact ⟨vb, rfl, h.1⟩
    · exact ss_dict_mem tl b h.2 kv hmem

theorem same_structure_dict {α β : Type} {a : List (String × PTree α)}
    {v : PTree β} (h : same_structure (.dict a) v = true) :
    ∃ b, v = .dict b ∧ ss_dict a b = true := by
  cases v with
  | dict b =>
    refine ⟨b, rfl, ?_⟩
    simp only [same_structure, Bool.and_eq_true] at h
    exact h.2
  | lstm c h2 => exact Bool.noConfusion h
  | tup xs => exact Bool.noConfusion h
  | lst xs => exact Bool.noConfusion h
  | leaf x => exact Bool.noConfusion h

theorem flat_go_ok {α β : Type} [DecidableEq α] :
    ∀ (kvs : List (String × PTree α)) (b : List (String × PTree β)) (e : Bool)
      (acc : List (PTree α × PTree β)),
    (∀ kv ∈ kvs, ∃ vb, pyLookup b kv.1 = some vb ∧ same_structure kv.2 vb = true) →
    (∀ kv ∈ kvs, ∀ (vb : PTree β), same_structure kv.2 vb = true →
      ∃ fd, flat_from_nested kv.2 vb e = .ok fd ∧
        ((nonDictSubtrees kv.2).Nodup → fd.map Prod.fst = nonDictSubtrees kv.2)) →
    ∃ out, flat_go kvs (.dict b) e acc = .ok out ∧
      ((acc.map Prod.fst ++ nds_go kvs).Nodup →
        out.map Prod.fst = acc.map Prod.fst ++ nds_go kvs)
  | [], b, e, acc, _, _ => ⟨acc, rfl, fun _ => by simp [nds_go]⟩
  | (k, v) :: tl, b, e, acc, h1, h2 => by
    obtain ⟨vb, hvb, hss⟩ := h1 (k, v) (List.mem_cons_self _ _)
    obtain ⟨fd_sub, hfd, hfdk⟩ := h2 (k, v) (List.mem_cons_self _ _) vb hss
    have hget : pyGetItem (PTree.dict b) k = .ok vb := by
      simp [pyGetItem, hvb]
    obtain ⟨out, hout, houtk⟩ :=
      flat_go_ok tl b e (pyUpdate acc fd_sub)
        (fun kv hkv => h1 kv (List.mem_cons_of_mem _ hkv))
        (fun kv hkv => h2 kv (List.mem_cons_of_mem _ hkv))
    refine ⟨out, ?_, ?_⟩
    · simp only [flat_go, hget, hfd]
      exact hout
    · intro hnd
      simp only [nds_go] at hnd ⊢
      have hsplit := List.nodup_append.mp hnd
      have hBC := List.nodup_append.mp hsplit.2.1
      have hndv : (nonDictSubtrees v).Nodup := hBC.1
      have hk : fd_sub.map Prod.fst = nonDictSubtrees v := hfdk hndv
      have hdisjAB : (acc.map Prod.fst).Disjoint (nonDictSubtrees v) :=
        (List.disjoint_append_right.mp hsplit.2.2).1
      have hup : pyUpdate acc fd_sub = acc ++ fd_sub := by
        apply pyUpdate_of_disjoint
        rw [hk]
        exact List.nodup_append.mpr ⟨hsplit.1, hndv, hdisjAB⟩
      have hacc : (pyUpdate acc fd_sub).map Prod.fst =
          acc.map Prod.fst ++ nonDictSubtrees v := by
        rw [hup, List.map_append, hk]
      have hnd2 : ((pyUpdate acc fd_sub).map Prod.fst ++ nds_go tl).Nodup := by
        rw [hacc, List.append_assoc]
        exact hnd
      rw [houtk hnd2, hacc, List.append_assoc]

theorem flat_from_nested_ok {α β : Type} [DecidableEq α] :
    ∀ (n : Nat) (p : PTree α), sizeOf p ≤ n → ∀ (v : PTree β) (e : Bool),
    same_structure p v = true →
    ∃ fd, flat_from_nested p v e = .ok fd ∧
      ((nonDictSubtrees p).Nodup → fd.map Prod.fst = nonDictSubtrees p) := by
  intro n
  induction n with
  | zero =>
    intro p hp
    exfalso
    cases p <;> simp_arith at hp
  | succ m ihm =>
    intro p hp v e hss
    cases p with
    | dict kvs =>
      obtain ⟨b, rfl, hsd⟩ := same_structure_dict hss
      have h1 := ss_dict_mem kvs b hsd
      have h2 : ∀ kv ∈ kvs, ∀ (vb : PTree β), same_structure kv.2 vb = true →
          ∃ fd, flat_from_nested kv.2 vb e = .ok fd ∧
            ((nonDictSubtrees kv.2).Nodup → fd.map Prod.fst = nonDictSubtrees kv.2) := by
        intro kv hkv vb hvb
        obtain ⟨k2, v2⟩ := kv
        have h3 := List.sizeOf_lt_of_mem hkv
        simp only [Prod.mk.sizeOf_spec] at h3
        simp only [PTree.dict.sizeOf_spec] at hp
        exact ihm v2 (by omega) vb e hvb
      obtain ⟨out, hout, houtk⟩ := flat_go_ok kvs b e [] h1 h2
      refine ⟨out, ?_, ?_⟩
      · simp only [flat_from_nested]
        exact hout
      · intro hnd
        simp only [nonDictSubtrees] at hnd ⊢
        have := houtk (by simpa using hnd)
        simpa using this
    | lstm c h2 => exact ⟨_, rfl, fun _ => rfl⟩
    | tup xs => exact ⟨_, rfl, fun _ => rfl⟩
    | lst xs => exact ⟨_, rfl, fun _ => rfl⟩
    | leaf a => exact ⟨_, rfl, fun _ => rfl⟩

/-- Claim C2, corrected.  The claim says `_flat_from_nested` pairs
pair-nodes and plain sequences positionally so that the flat mapping has
exactly one entry per slot leaf.  In the source the recursion descends
only into dict nodes; an `LSTMStateTuple`, tuple or list slot node is
bound whole as a single feed-dict entry.  Amended statement, proved here:
for structurally isomorphic trees (with distinct slot subtrees), the flat
mapping contains exactly one entry per maximal non-dict subtree of the
slot tree, keyed by those subtrees in traversal order — so exactly one
entry per slot leaf whenever every interior node of the slot tree is a
dict. -/
theorem c2_theorem {α β : Type} [DecidableEq α] (placeholder : PTree α)
    (value : PTree β) (expand_batch : Bool)
    (h : same_structure placeholder value = true)
    (hnd : (nonDictSubtrees placeholder).Nodup) :
    ∃ fd, feed_dict_from_nested placeholder value expand_batch = .ok fd ∧
      fd.map Prod.fst = nonDictSubtrees placeholder := by
  obtain ⟨fd, hfd, hkeys⟩ :=
    flat_from_nested_ok (sizeOf placeholder) placeholder le_rfl value expand_batch h
  exact ⟨fd, by simp [feed_dict_from_nested, h, hfd], hkeys hnd⟩

/-- Claim C2, counterexample to the claim as stated: a slot tree with a
single key `"s"` holding a tuple of two distinct placeholder leaves, bound
against an isomorphic value tree.  The slot tree has two leaves, but the
returned flat mapping has exactly one entry (the whole tuple bound to the
whole value tuple), so the mapping does not contain one entry per slot
leaf. -/
theorem c2_counterexample :
    (flatten_nested (PTree.dict [("s", PTree.tup [.leaf (1 : Nat), .leaf 2])])).length = 2 ∧
    feed_dict_from_nested (PTree.dict [("s", PTree.tup [.leaf (1 : Nat), .leaf 2])])
      (PTree.dict [("s", PTree.tup [.leaf (10 : Nat), .leaf 20])]) false =
      .ok [(.tup [.leaf 1, .leaf 2], .tup [.leaf 10, .leaf 20])] := by
  constructor
  · simp [flatten_nested, fn_dict, fn_list, sortByKey, insertByKey]
  · rfl

/-- Witness for `c2_theorem` at a concrete input: a nested dict slot tree
whose non-dict positions are all leaves; the feed dict has exactly one
entry per leaf, in traversal order. -/
theorem c2_witness :
    same_structure (PTree.dict [("a", PTree.leaf (1 : Nat)), ("b", .dict [("c", .leaf 2)])])
      (PTree.dict [("a", PTree.leaf (10 : Nat)), ("b", .dict [("c", .leaf 20)])]) = true ∧
    (nonDictSubtrees (PTree.dict [("a", PTree.leaf (1 : Nat)), ("b", .dict [("c", .leaf 2)])])).Nodup ∧
    ∃ fd, feed_dict_from_nested
        (PTree.dict [("a", PTree.leaf (1 : Nat)), ("b", .dict [("c", .leaf 2)])])
        (PTree.dict [("a", PTree.leaf (10 : Nat)), ("b", .dict [("c", .leaf 20)])]) false =
        .ok fd ∧
      fd.map Prod.fst =
        nonDictSubtrees (PTree.dict [("a", PTree.leaf (1 : Nat)), ("b", .dict [("c", .leaf 2)])]) :=
  ⟨rfl, by decide,
    c2_theorem (PTree.dict [("a", PTree.leaf (1 : Nat)), ("b", .dict [("c", .leaf 2)])])
      (PTree.dict [("a", PTree.leaf (10 : Nat)), ("b", .dict [("c", .leaf 20)])]) false
      rfl (by decide)⟩

/-! ## Helper lemmas for `batch_concat` -/

theorem except_ok_bind {A B : Type} (a : A) (f : A → Except String B) :
    (Except.ok a >>= f) = f a := rfl

theorem mapM_map_ok {γ : Type} (g : Val → Except String Val) (f h : γ → Val) :
    ∀ (l : List γ), (∀ x ∈ l, g (f x) = .ok (h x)) →
    (l.map f).mapM g = .ok (l.map h)
  | [], _ => rfl
  | x :: tl, hx => by
    rw [List.map_cons, List.mapM_cons, hx x (List.mem_cons_self _ _), except_ok_bind,
      mapM_map_ok g f h tl (fun y hy => hx y (List.mem_cons_of_mem _ hy)), except_ok_bind]
    rfl

theorem np_concat_go_uniform (T : Nat) (tail : List Nat) :
    ∀ (datas : List (List Int)) (dsum : Nat) (dat : List Int),
    np_concat_go (datas.map (fun d => Val.arr (T :: tail) d)) tail dsum dat =
      .ok (.arr ((dsum + datas.length * T) :: tail) (dat ++ datas.flatten))
  | [], dsum, dat => by simp [np_concat_go]
  | d :: tl, dsum, dat => by
    simp only [List.map_cons, np_concat_go, toArr, if_pos]
    rw [np_concat_go_uniform T tail tl (dsum + T) (dat ++ d)]
    have hA : dsum + T + tl.length * T = dsum + (d :: tl).length * T := by
      simp only [List.length_cons]
      ring
    have hB : (dat ++ d) ++ tl.flatten = dat ++ (d :: tl).flatten := by
      simp [List.append_assoc]
    rw [hA, hB]

theorem np_concatenate_uniform (T : Nat) (tail : List Nat) (d0 : List Int)
    (datas : List (List Int)) :
    np_concatenate
        (Val.arr (T :: tail) d0 :: datas.map (fun d => Val.arr (T :: tail) d)) =
      .ok (.arr (((datas.length + 1) * T) :: tail) (d0 ++ datas.flatten)) := by
  simp only [np_concatenate, toArr]
  rw [np_concat_go_uniform T tail datas T d0]
  have hA : T + datas.length * T = (datas.length + 1) * T := by ring
  rw [hA]

/-- Claim C10: on the empty list, `batch_concat` raises `IndexError` at
`master = dict_list[0]` before any other work, and never returns a result
tree. -/
theorem c10_theorem :
    batch_concat [] = .error "IndexError: list index out of range" := rfl

/-- Claim C4: for a non-empty list of N isomorphic dict trees, each with an
`"obs"` leaf of shape `[T, 3]` and a `"terminal"` leaf of shape `[T]`,
`batch_concat` returns a tree whose `"obs"` leaf has shape `[N*T, 3]` and
`"terminal"` leaf has shape `[N*T]` (leaves concatenated along axis 0,
row-major data joined in order), plus the scalars
`rnn_batch_size = N` and `rnn_time_steps = T`. -/
theorem c4_theorem (T : Nat) (trees : List (List Int × List Int))
    (hne : trees ≠ []) :
    batch_concat (trees.map (fun pr =>
        Val.dict [("obs", .arr [T, 3] pr.1), ("terminal", .arr [T] pr.2)])) =
      .ok (.dict
        [("rnn_batch_size", .intv trees.length),
         ("rnn_time_steps", .intv T),
         ("obs", .arr [trees.length * T, 3] (trees.map Prod.fst).flatten),
         ("terminal", .arr [trees.length * T] (trees.map Prod.snd).flatten)]) := by
  cases trees with
  | nil => exact absurd rfl hne
  | cons pr0 tlp =>
    simp only [List.map_cons, batch_concat]
    have h1 : pyValGet (Val.dict [("obs", Val.arr [T, 3] pr0.1),
        ("terminal", Val.arr [T] pr0.2)]) "terminal" = .ok (Val.arr [T] pr0.2) := by
      simp [pyValGet, pyLookup]
    have hobs : (tlp.map (fun pr : List Int × List Int =>
          Val.dict [("obs", .arr [T, 3] pr.1), ("terminal", .arr [T] pr.2)])).mapM
        (fun value => pyValGet value "obs") =
        .ok (tlp.map (fun pr => Val.arr [T, 3] pr.1)) :=
      mapM_map_ok _ _ _ tlp (fun x _ => by simp [pyValGet, pyLookup])
    have hterm : (tlp.map (fun pr : List Int × List Int =>
          Val.dict [("obs", .arr [T, 3] pr.1), ("terminal", .arr [T] pr.2)])).mapM
        (fun value => pyValGet value "terminal") =
        .ok (tlp.map (fun pr => Val.arr [T] pr.2)) :=
      mapM_map_ok _ _ _ tlp (fun x _ => by simp [pyValGet, pyLookup])
    have hnp_obs : np_concatenate
        (Val.arr [T, 3] pr0.1 :: tlp.map (fun pr => Val.arr [T, 3] pr.1)) =
        .ok (.arr [(tlp.length + 1) * T, 3]
          (pr0.1 ++ (tlp.map Prod.fst).flatten)) := by
      rw [show tlp.map (fun pr => Val.arr [T, 3] pr.1) =
          (tlp.map Prod.fst).map (fun d => Val.arr (T :: [3]) d) by
        rw [List.map_map]; rfl]
      rw [np_concatenate_uniform T [3] pr0.1 (tlp.map Prod.fst)]
      simp
    have hnp_term : np_concatenate
        (Val.arr [T] pr0.2 :: tlp.map (fun pr => Val.arr [T] pr.2)) =
        .ok (.arr [(tlp.length + 1) * T]
          (pr0.2 ++ (tlp.map Prod.snd).flatten)) := by
      rw [show tlp.map (fun pr => Val.arr [T] pr.2) =
          (tlp.map Prod.snd).map (fun d => Val.arr (T :: []) d) by
        rw [List.map_map]; rfl]
      rw [np_concatenate_uniform T [] pr0.2 (tlp.map Prod.snd)]
      simp
    simp only [bc, bc_init, h1, valShape0, List.length_map, bc_dict, hobs, hterm,
      pyInsert, List.length_cons]
    simp [hnp_obs, hnp_term]


/-- Witness for `c4_theorem`: N = 2 trees with T = 2 time steps; the result
has `obs` of shape `[4, 3]`, `terminal` of shape `[4]`,
`rnn_batch_size = 2` and `rnn_time_steps = 2`. -/
theorem c4_witness :
    ([([1, 2, 3, 4, 5, 6], [0, 0]), ([7, 8, 9, 10, 11, 12], [0, 1])] :
        List (List Int × List Int)) ≠ [] ∧
    batch_concat
      [Val.dict [("obs", .arr [2, 3] [1, 2, 3, 4, 5, 6]), ("terminal", .arr [2] [0, 0])],
       Val.dict [("obs", .arr [2, 3] [7, 8, 9, 10, 11, 12]), ("terminal", .arr [2] [0, 1])]] =
      .ok (.dict
        [("rnn_batch_size", .intv 2), ("rnn_time_steps", .intv 2),
         ("obs", .arr [4, 3] [1, 2, 3, 4, 5, 6, 7, 8, 9, 10, 11, 12]),
         ("terminal", .arr [4] [0, 0, 0, 1])]) := by
  refine ⟨by decide, ?_⟩
  have h := c4_theorem 2
    [([1, 2, 3, 4, 5, 6], [0, 0]), ([7, 8, 9, 10, 11, 12], [0, 1])] (by decide)
  simpa using h

/-- Claim C6: for a non-empty list of N isomorphic trees whose `"state"`
leaf is an `LSTMStateTuple` pair `(c, h)` with channels of shape `[T, H]`
(and a `"terminal"` leaf of shape `[T]`, required by the top-level shape
inference), `batch_concat` returns at `"state"` a pair whose first channel
concatenates exactly the first channels and whose second channel
concatenates exactly the second channels, each of shape `[N*T, H]`:
channels are never mixed. -/
theorem c6_theorem (T H : Nat) (trees : List (List Int × List Int × List Int))
    (hne : trees ≠ []) :
    batch_concat (trees.map (fun pr =>
        Val.dict [("state", .lstm (.arr [T, H] pr.1) (.arr [T, H] pr.2.1)),
                  ("terminal", .arr [T] pr.2.2)])) =
      .ok (.dict
        [("rnn_batch_size", .intv trees.length),
         ("rnn_time_steps", .intv T),
         ("state", .lstm
            (.arr [trees.length * T, H] ((trees.map (fun pr => pr.1)).flatten))
            (.arr [trees.length * T, H] ((trees.map (fun pr => pr.2.1)).flatten))),
         ("terminal", .arr [trees.length * T] ((trees.map (fun pr => pr.2.2)).flatten))]) := by
  cases trees with
  | nil => exact absurd rfl hne
  | cons pr0 tlp =>
    simp only [List.map_cons, batch_concat]
    have h1 : pyValGet (Val.dict [("state", Val.lstm (.arr [T, H] pr0.1) (.arr [T, H] pr0.2.1)),
        ("terminal", Val.arr [T] pr0.2.2)]) "terminal" = .ok (Val.arr [T] pr0.2.2) := by
      simp [pyValGet, pyLookup]
    have hstate : (tlp.map (fun pr : List Int × List Int × List Int =>
          Val.dict [("state", .lstm (.arr [T, H] pr.1) (.arr [T, H] pr.2.1)),
                    ("terminal", .arr [T] pr.2.2)])).mapM
        (fun value => pyValGet value "state") =
        .ok (tlp.map (fun pr => Val.lstm (.arr [T, H] pr.1) (.arr [T, H] pr.2.1))) :=
      mapM_map_ok _ _ _ tlp (fun x _ => by simp [pyValGet, pyLookup])
    have hterm : (tlp.map (fun pr : List Int × List Int × List Int =>
          Val.dict [("state", .lstm (.arr [T, H] pr.1) (.arr [T, H] pr.2.1)),
                    ("terminal", .arr [T] pr.2.2)])).mapM
        (fun value => pyValGet value "terminal") =
        .ok (tlp.map (fun pr => Val.arr [T] pr.2.2)) :=
      mapM_map_ok _ _ _ tlp (fun x _ => by simp [pyValGet, pyLookup])
    have hidx0 : (tlp.map (fun pr : List Int × List Int × List Int =>
          Val.lstm (.arr [T, H] pr.1) (.arr [T, H] pr.2.1))).mapM
        (fun state => pyIndex state 0) =
        .ok (tlp.map (fun pr => Val.arr [T, H] pr.1)) :=
      mapM_map_ok _ _ _ tlp (fun x _ => rfl)
    have hidx1 : (tlp.map (fun pr : List Int × List Int × List Int =>
          Val.lstm (.arr [T, H] pr.1) (.arr [T, H] pr.2.1))).mapM
        (fun state => pyIndex state 1) =
        .ok (tlp.map (fun pr => Val.arr [T, H] pr.2.1)) :=
      mapM_map_ok _ _ _ tlp (fun x _ => rfl)
    have hnp_c : np_concatenate
        (Val.arr [T, H] pr0.1 :: tlp.map (fun pr => Val.arr [T, H] pr.1)) =
        .ok (.arr [(tlp.length + 1) * T, H]
          (pr0.1 ++ (tlp.map (fun pr => pr.1)).flatten)) := by
      rw [show tlp.map (fun pr : List Int × List Int × List Int => Val.arr [T, H] pr.1) =
          (tlp.map (fun pr => pr.1)).map (fun d => Val.arr (T :: [H]) d) by
        rw [List.map_map]; rfl]
      rw [np_concatenate_uniform T [H] pr0.1 (tlp.map (fun pr => pr.1))]
      simp
    have hnp_h : np_concatenate
        (Val.arr [T, H] pr0.2.1 :: tlp.map (fun pr => Val.arr [T, H] pr.2.1)) =
        .ok (.arr [(tlp.length + 1) * T, H]
          (pr0.2.1 ++ (tlp.map (fun pr => pr.2.1)).flatten)) := by
      rw [show tlp.map (fun pr : List Int × List Int × List Int => Val.arr [T, H] pr.2.1) =
          (tlp.map (fun pr => pr.2.1)).map (fun d => Val.arr (T :: [H]) d) by
        rw [List.map_map]; rfl]
      rw [np_concatenate_uniform T [H] pr0.2.1 (tlp.map (fun pr => pr.2.1))]
      simp
    have hnp_term : np_concatenate
        (Val.arr [T] pr0.2.2 :: tlp.map (fun pr => Val.arr [T] pr.2.2)) =
        .ok (.arr [(tlp.length + 1) * T]
          (pr0.2.2 ++ (tlp.map (fun pr => pr.2.2)).flatten)) := by
      rw [show tlp.map (fun pr : List Int × List Int × List Int => Val.arr [T] pr.2.2) =
          (tlp.map (fun pr => pr.2.2)).map (fun d => Val.arr (T :: []) d) by
        rw [List.map_map]; rfl]
      rw [np_concatenate_uniform T [] pr0.2.2 (tlp.map (fun pr => pr.2.2))]
      simp
    simp only [bc, bc_init, h1, valShape0, List.length_map, bc_dict, hstate, hterm,
      hidx0, hidx1, pyInsert, List.length_cons]
    simp [hnp_c, hnp_h, hnp_term]

/-- Witness for `c6_theorem`: N = 2, T = 1, H = 2; the `"state"` result is
the pair of the concatenated c-channels and the concatenated h-channels,
never a mixture. -/
theorem c6_witness :
    ([([1, 2], [3, 4], [0]), ([5, 6], [7, 8], [1])] :
        List (List Int × List Int × List Int)) ≠ [] ∧
    batch_concat
      [Val.dict [("state", .lstm (.arr [1, 2] [1, 2]) (.arr [1, 2] [3, 4])),
                 ("terminal", .arr [1] [0])],
       Val.dict [("state", .lstm (.arr [1, 2] [5, 6]) (.arr [1, 2] [7, 8])),
                 ("terminal", .arr [1] [1])]] =
      .ok (.dict
        [("rnn_batch_size", .intv 2), ("rnn_time_steps", .intv 1),
         ("state", .lstm (.arr [2, 2] [1, 2, 5, 6]) (.arr [2, 2] [3, 4, 7, 8])),
         ("terminal", .arr [2] [0, 1])]) := by
  refine ⟨by decide, ?_⟩
  have h := c6_theorem 1 2 [([1, 2], [3, 4], [0]), ([5, 6], [7, 8], [1])] (by decide)
  simpa using h

/-! ## Key bookkeeping of the `batch_concat` dict loop -/

theorem bc_dict_keys : ∀ (kvs : List (String × Val)) (rest : List Val)
    (batch out : List (String × Val)),
    bc_dict kvs rest batch = .ok out →
    out.map Prod.fst = (kvs.map Prod.fst).foldl
      (fun ks k => if k ∈ ks then ks else ks ++ [k]) (batch.map Prod.fst)
  | [], _, batch, out, h => by
    simp only [bc_dict] at h
    cases h
    simp
  | (key, sub) :: tl, rest, batch, out, h => by
    simp only [bc_dict] at h
    cases hm : rest.mapM (fun value => pyValGet value key) with
    | error e => rw [hm] at h; exact Except.noConfusion h
    | ok others =>
      rw [hm] at h
      dsimp only [] at h
      cases hbc : bc sub others false with
      | error e => rw [hbc] at h; exact Except.noConfusion h
      | ok v =>
        rw [hbc] at h
        dsimp only [] at h
        have ih := bc_dict_keys tl rest (pyInsert batch key v) out h
        simp only [List.map_cons, List.foldl_cons]
        rw [ih, map_fst_pyInsert]

theorem foldl_insertKeys : ∀ (ks acc : List String),
    ks.Nodup → (∀ k ∈ ks, k ∉ acc) →
    ks.foldl (fun a k => if k ∈ a then a else a ++ [k]) acc = acc ++ ks
  | [], acc, _, _ => by simp
  | k :: tl, acc, hnd, hdisj => by
    have hk : k ∉ acc := hdisj k (List.mem_cons_self _ _)
    simp only [List.foldl_cons]
    rw [if_neg hk]
    rw [foldl_insertKeys tl (acc ++ [k]) (List.nodup_cons.mp hnd).2 ?_]
    · simp
    · intro k2 hk2
      simp only [List.mem_append, List.mem_singleton]
      push_neg
      exact ⟨hdisj k2 (List.mem_cons_of_mem _ hk2),
        fun he => (List.nodup_cons.mp hnd).1 (he ▸ hk2)⟩

/-- Claim C5: a non-root invocation of the concatenation recursion (the
internal flag `false`, as passed by every recursive call in the source)
on dict trees returns a mapping with exactly the keys of the input trees:
`rnn_batch_size` and `rnn_time_steps` are never injected below the top
level, so they appear only in the outermost result. -/
theorem bc_init_false (master : Val) (n : Nat) : bc_init master n false = .ok [] := rfl

theorem c5_theorem (kvs : List (String × Val)) (rest : List Val) (r : Val)
    (hnd : (kvs.map Prod.fst).Nodup)
    (h : bc (.dict kvs) rest false = .ok r) :
    ∃ out, r = .dict out ∧ out.map Prod.fst = kvs.map Prod.fst := by
  simp only [bc, bc_init_false] at h
  cases hbd : bc_dict kvs rest [] with
  | error e => rw [hbd] at h; exact Except.noConfusion h
  | ok out =>
    rw [hbd] at h
    injection h with h2
    refine ⟨out, h2.symm, ?_⟩
    have hk := bc_dict_keys kvs rest [] out hbd
    rw [hk]
    simpa using foldl_insertKeys (kvs.map Prod.fst) [] hnd (by simp)

/-- Witness for `c5_theorem`: a one-key dict tree concatenated at non-top
level; the result keeps exactly the key `"x"` and gains no injected
scalars. -/
theorem c5_witness :
    (([("x", Val.arr [1] [5])].map Prod.fst).Nodup) ∧
    bc (.dict [("x", Val.arr [1] [5])]) [] false = .ok (.dict [("x", Val.arr [1] [5])]) ∧
    ∃ out, (Val.dict [("x", Val.arr [1] [5])]) = .dict out ∧
      out.map Prod.fst = [("x", Val.arr [1] [5])].map Prod.fst :=
  ⟨by decide, rfl, c5_theorem [("x", Val.arr [1] [5])] [] _ (by decide) rfl⟩

/-- Top-level key access on a result tree (python `result[key]` on a
dict). -/
def valGetKey : Val → String → Option Val
  | .dict kvs, key => pyLookup kvs key
  | _, _ => none

theorem bc_dict_lookup_preserved : ∀ (kvs : List (String × Val)) (rest : List Val)
    (batch out : List (String × Val)) (key : String),
    bc_dict kvs rest batch = .ok out → key ∉ kvs.map Prod.fst →
    pyLookup out key = pyLookup batch key
  | [], _, batch, out, key, h, _ => by
    simp only [bc_dict] at h
    cases h
    rfl
  | (k, sub) :: tl, rest, batch, out, key, h, hk => by
    simp only [bc_dict] at h
    have hne2 : k ≠ key := fun he => hk (by simp [List.map_cons, ← he])
    cases hm : rest.mapM (fun value => pyValGet value k) with
    | error e => rw [hm] at h; exact Except.noConfusion h
    | ok others =>
      rw [hm] at h
      dsimp only [] at h
      cases hbc : bc sub others false with
      | error e => rw [hbc] at h; exact Except.noConfusion h
      | ok v =>
        rw [hbc] at h
        dsimp only [] at h
        rw [bc_dict_lookup_preserved tl rest (pyInsert batch k v) out key h
          (fun hmem => hk (List.mem_cons_of_mem _ hmem))]
        exact pyLookup_pyInsert_ne batch v hne2

theorem bc_top_time_steps (kvs : List (String × Val)) (rest : List Val) (r : Val)
    (hkey : "rnn_time_steps" ∉ kvs.map Prod.fst)
    (h : bc (.dict kvs) rest true = .ok r) :
    ∃ out term t0, r = .dict out ∧ pyLookup kvs "terminal" = some term ∧
      valShape0 term = .ok t0 ∧ pyLookup out "rnn_time_steps" = some (.intv t0) := by
  simp only [bc, bc_init, pyValGet, if_pos] at h
  cases hlk : pyLookup kvs "terminal" with
  | none => rw [hlk] at h; exact Except.noConfusion h
  | some term =>
    rw [hlk] at h
    dsimp only [] at h
    cases hs0 : valShape0 term with
    | error e => rw [hs0] at h; exact Except.noConfusion h
    | ok t0 =>
      rw [hs0] at h
      dsimp only [] at h
      cases hbd : bc_dict kvs rest
          [("rnn_batch_size", .intv (rest.length + 1)),
           ("rnn_time_steps", .intv t0)] with
      | error e => rw [hbd] at h; exact Except.noConfusion h
      | ok out =>
        rw [hbd] at h
        dsimp only [] at h
        injection h with h2
        refine ⟨out, term, t0, h2.symm, rfl, hs0, ?_⟩
        rw [bc_dict_lookup_preserved kvs rest _ out "rnn_time_steps" hbd hkey]
        simp [pyLookup]

/-- Claim C9: for two valid calls sharing the same first tree,
`rnn_time_steps` in both results is the same value, read solely from the
first tree's `"terminal"` leaf (its leading shape dimension); the other
input trees do not influence it and no uniformity check across trees is
performed.  The first tree is a dict whose top-level keys do not include
the injected name `rnn_time_steps` itself. -/
theorem c9_theorem (kvs : List (String × Val)) (rest rest2 : List Val) (r r2 : Val)
    (hkey : "rnn_time_steps" ∉ kvs.map Prod.fst)
    (h1 : batch_concat (Val.dict kvs :: rest) = .ok r)
    (h2 : batch_concat (Val.dict kvs :: rest2) = .ok r2) :
    ∃ term t0, pyLookup kvs "terminal" = some term ∧ valShape0 term = .ok t0 ∧
      valGetKey r "rnn_time_steps" = some (.intv t0) ∧
      valGetKey r2 "rnn_time_steps" = some (.intv t0) := by
  simp only [batch_concat] at h1 h2
  obtain ⟨out1, term, t0, hr1, hlk, hs0, ho1⟩ := bc_top_time_steps kvs rest r hkey h1
  obtain ⟨out2, term2, t02, hr2, hlk2, hs02, ho2⟩ := bc_top_time_steps kvs rest2 r2 hkey h2
  rw [hlk] at hlk2
  injection hlk2 with hterm2
  subst hterm2
  rw [hs0] at hs02
  injection hs02 with ht02
  subst ht02
  refine ⟨term, t0, hlk, hs0, ?_, ?_⟩
  · rw [hr1]
    simpa [valGetKey] using ho1
  · rw [hr2]
    simpa [valGetKey] using ho2

/-- Witness for `c9_theorem`: the first tree has 2 time steps, the second
tree of the first call has 3 time steps — yet both calls succeed (no
uniformity check) and both report `rnn_time_steps = 2`, read from the
first tree alone. -/
theorem c9_witness :
    ("rnn_time_steps" ∉ ([("terminal", Val.arr [2] [0, 0])].map Prod.fst)) ∧
    batch_concat [Val.dict [("terminal", .arr [2] [0, 0])],
        Val.dict [("terminal", .arr [3] [0, 0, 0])]] =
      .ok (.dict [("rnn_batch_size", .intv 2), ("rnn_time_steps", .intv 2),
        ("terminal", .arr [5] [0, 0, 0, 0, 0])]) ∧
    batch_concat [Val.dict [("terminal", .arr [2] [0, 0])]] =
      .ok (.dict [("rnn_batch_size", .intv 1), ("rnn_time_steps", .intv 2),
        ("terminal", .arr [2] [0, 0])]) ∧
    ∃ term t0, pyLookup [("terminal", Val.arr [2] [0, 0])] "terminal" = some term ∧
      valShape0 term = .ok t0 ∧
      valGetKey (.dict [("rnn_batch_size", .intv 2), ("rnn_time_steps", .intv 2),
        ("terminal", .arr [5] [0, 0, 0, 0, 0])]) "rnn_time_steps" = some (.intv t0) ∧
      valGetKey (.dict [("rnn_batch_size", .intv 1), ("rnn_time_steps", .intv 2),
        ("terminal", .arr [2] [0, 0])]) "rnn_time_steps" = some (.intv t0) := by
  refine ⟨by decide, rfl, rfl, ?_⟩
  exact c9_theorem [("terminal", Val.arr [2] [0, 0])]
    [Val.dict [("terminal", .arr [3] [0, 0, 0])]] [] _ _ (by decide) rfl rfl
